import Mathlib

/-!
Verification of the template rendering and placeholder substitution engine of
the IssuesGenerator frontend (src/project/frontend/script.js).

The embedding works over `List Char` (wrapped into `String` at the interface).
It covers:
  * the placeholder substitution loops of `updatePreview` (lines 730-747) and
    `createIssue` (lines 528-544), which build a field-value map from the form
    fields and then, for each entry, run one global regex replacement of the
    pattern built by interpolating the key between escaped braces;
  * the markdown-to-HTML rewrite chain of `updatePreview` (lines 749-788),
    an ordered sequence of regex rewrites;
  * the validation prefix of `createIssue` (lines 494-523).

JavaScript regex semantics modelled here:
  * the pattern handed to the RegExp constructor is backslash-brace, the raw
    key, backslash-brace; when the key contains none of the ECMA-262 syntax
    characters this pattern denotes the literal text of the placeholder and
    `String.replace` with the `g` flag is a leftmost, non-overlapping global
    replacement of that literal, which is what `listReplaceAll` computes;
  * the RegExp constructor throws a SyntaxError when the interpolated key
    makes the pattern ill-formed (for example an unbalanced group from the
    key "("); `regexScan` checks the group/class/escape structure that the
    ECMA-262 pattern grammar requires, which is what decides this for the
    patterns this program can build from the keys considered here;
  * replacement strings are inserted literally (the dollar escapes of
    `String.replace` are not exercised by any claim considered here).
-/

namespace IssuesGen

/-! ### Generic string helpers -/

/-- Number of starting positions at which `pat` occurs in `s`. -/
def countSub (pat : List Char) : List Char → Nat
  | [] => 0
  | c :: rest => (if pat.isPrefixOf (c :: rest) then 1 else 0) + countSub pat rest

/-- String-level wrapper: does `sub` occur somewhere in `s`? -/
def strContains (s sub : String) : Bool :=
  decide (sub.data <:+: s.data)

/-- String-level wrapper: number of starting positions at which `sub` occurs in `s`. -/
def strCount (s sub : String) : Nat :=
  countSub sub.data s.data

/-- Whitespace for the purposes of JavaScript `trim` and the `\s` character
class (ASCII part plus no-break space; the exotic Unicode spaces are not
exercised by this program's data). -/
def isJsSpace (c : Char) : Bool :=
  c = ' ' || c = '\t' || c = '\n' || c = '\r' || c = '\x0b' || c = '\x0c' || c = ' '

/-- JavaScript `String.prototype.trim`: strip whitespace from both ends. -/
def jsTrim (s : String) : String :=
  ⟨((s.data.dropWhile isJsSpace).reverse.dropWhile isJsSpace).reverse⟩

/-! ### Placeholder substitution (script.js lines 528-545 and 730-747)

Source, identical in both functions:

    Object.entries(fieldValues).forEach(([key, value]) => {
        const placeholder = new RegExp(backslash-brace + key + backslash-brace, 'g');
        finalBody = finalBody.replace(placeholder, value);
    });
-/

/-- One fuel step per examined position; `replaceAllFuel pat repl fuel s`
replaces the leftmost, non-overlapping occurrences of `pat` in `s` by `repl`,
scanning left to right, exactly as `String.replace` with a `g`-flagged literal
pattern does.  Fuel `s.length` always suffices (each step consumes at least
one character of `s`); an exhausted fuel returns the rest unchanged. -/
def replaceAllFuel (pat repl : List Char) : Nat → List Char → List Char
  | 0, s => s
  | _ + 1, [] => []
  | fuel + 1, c :: rest =>
    if pat.isPrefixOf (c :: rest) && !pat.isEmpty then
      repl ++ replaceAllFuel pat repl fuel (List.drop (pat.length - 1) rest)
    else
      c :: replaceAllFuel pat repl fuel rest

/-- Global replacement of the literal `pat` by `repl` in `s`. -/
def listReplaceAll (pat repl s : List Char) : List Char :=
  replaceAllFuel pat repl s.length s

/-- The ECMA-262 `SyntaxCharacter` set: characters with special meaning in a
regular expression pattern. -/
def regexSyntaxChar (c : Char) : Bool :=
  c = '^' || c = '$' || c = '\\' || c = '.' || c = '*' || c = '+' || c = '?' ||
  c = '(' || c = ')' || c = '[' || c = ']' || c = '\x7b' || c = '\x7d' || c = '|'

/-- A key whose characters are all ordinary pattern characters; interpolated
into the pattern it denotes exactly the literal placeholder text. -/
def isRegexLiteralKey (key : String) : Bool :=
  key.data.all (fun c => !regexSyntaxChar c)

/-- A string containing neither brace character, the shape of a placeholder
name. -/
def braceFree (s : String) : Bool :=
  s.data.all (fun c => !(c = '\x7b' || c = '\x7d'))

/-- Structural validity scan of a regular expression pattern: a backslash
escapes the following character (and may not dangle), an unescaped opening
bracket starts a character class closed by the next unescaped closing bracket,
and unescaped group parentheses must balance.  The ECMA-262 pattern grammar
requires all of this, so a pattern rejected here makes the RegExp constructor
throw a SyntaxError; for the patterns this program builds (escaped braces
around a key) the scan is also sufficient for the keys considered in the
theorems below. -/
def regexScan : List Char → Nat → Bool → Bool
  | [], depth, inClass => depth == 0 && !inClass
  | c :: rest, depth, inClass =>
    if c = '\\' then
      match rest with
      | [] => false
      | _ :: rest' => regexScan rest' depth inClass
    else if inClass then
      if c = ']' then regexScan rest depth false else regexScan rest depth true
    else if c = '[' then regexScan rest depth true
    else if c = '(' then regexScan rest (depth + 1) false
    else if c = ')' then
      match depth with
      | 0 => false
      | d + 1 => regexScan rest d false
    else regexScan rest depth false

/-- Whether the RegExp constructor accepts the pattern. -/
def regexWellFormed (p : String) : Bool :=
  regexScan p.data 0 false

/-- The pattern text `new RegExp` receives: backslash, brace, key, backslash,
brace. -/
def mkPlaceholderPattern (key : String) : String :=
  "\\\x7b" ++ key ++ "\\\x7d"

/-- The literal placeholder text `{key}`. -/
def placeholderText (key : String) : String :=
  "\x7b" ++ key ++ "\x7d"

/-- Failure of one substitution step: the RegExp constructor rejected the
pattern built from the key. -/
inductive SubstError where
  | invalidRegex (pattern : String)
deriving DecidableEq, Repr

/-- One iteration of the forEach loop: build the regex for `key` and replace
globally in `body`.  A key that yields an ill-formed pattern raises. -/
def substituteKey (body key value : String) : Except SubstError String :=
  if regexWellFormed (mkPlaceholderPattern key) then
    .ok ⟨listReplaceAll (placeholderText key).data value.data body.data⟩
  else
    .error (.invalidRegex (mkPlaceholderPattern key))

/-- The whole forEach loop over `Object.entries(fieldValues)` (insertion
order, i.e. the DOM order of the form fields): each entry's replacement runs
on the output of the previous one. -/
def replacePlaceholders (body : String) : List (String × String) → Except SubstError String
  | [] => .ok body
  | (key, value) :: rest =>
    match substituteKey body key value with
    | .ok body' => replacePlaceholders body' rest
    | .error e => .error e

/-! ### Field values (script.js lines 528-538 and 731-740) -/

/-- A form field's current value: a string, or the checked state of a
checkbox. -/
inductive FieldVal where
  | str (s : String)
  | checkbox (b : Bool)
deriving DecidableEq, Repr

/-- A form control whose id starts with "field-", in DOM order. -/
structure FormField where
  name : String
  value : FieldVal
deriving DecidableEq, Repr

/-- updatePreview's stringification (lines 735-739): a checked checkbox
becomes "✓ Yes", an unchecked one "✗ No". -/
def previewValueString : FieldVal → String
  | .str s => s
  | .checkbox b => if b then "✓ Yes" else "✗ No"

/-- createIssue's stringification (lines 533-537): the checkbox's boolean is
stored as-is and later coerced by `String.replace`, producing the raw text
"true" or "false". -/
def submitValueString : FieldVal → String
  | .str s => s
  | .checkbox b => if b then "true" else "false"

/-- The `fieldValues` object built by updatePreview. -/
def previewFieldValues (fields : List FormField) : List (String × String) :=
  fields.map (fun f => (f.name, previewValueString f.value))

/-- The `fieldValues` object built by createIssue. -/
def submitFieldValues (fields : List FormField) : List (String × String) :=
  fields.map (fun f => (f.name, submitValueString f.value))

/-- The `processedMarkdown` computed by updatePreview before rendering
(lines 742-747). -/
def previewSubstitute (markdown : String) (fields : List FormField) : Except SubstError String :=
  replacePlaceholders markdown (previewFieldValues fields)

/-- The `finalBody` computed by createIssue (lines 540-545). -/
def createIssueFinalBody (body : String) (fields : List FormField) : Except SubstError String :=
  replacePlaceholders body (submitFieldValues fields)

/-! ### Markdown renderer (script.js lines 749-788)

The source is a chain of `String.replace` calls on `processedMarkdown`,
in this order: the six line-anchored header rules, bold, italic, inline code,
fenced code blocks, links, images, bullet list lines, numbered list lines,
blockquote lines, horizontal rules, double newline to paragraph break, single
newline to line break; then the run of list items is wrapped in one
unordered-list element, the whole result is wrapped in one paragraph, and
empty paragraphs are removed. -/

/-- Apply a rewrite to every line (the `m`-flagged, `^`-anchored rules; the
dot never matches a newline, so such a rule acts on each line separately). -/
def mapLines (f : List Char → List Char) (s : List Char) : List Char :=
  List.intercalate ['\n'] ((List.splitOn '\n' s).map f)

/-- Header rule for level `n`: a line starting with `n` hashes and a space is
wrapped in the corresponding heading element. -/
def headerLine (n : Nat) (line : List Char) : List Char :=
  let marker := List.replicate n '#' ++ [' ']
  if marker.isPrefixOf line then
    ('<' :: 'h' :: Nat.toDigits 10 n) ++ ['>'] ++ line.drop (n + 1) ++
      ('<' :: '/' :: 'h' :: Nat.toDigits 10 n) ++ ['>']
  else line

/-- Bullet list rule: a line starting with a dash and a space becomes a list
item. -/
def bulletLine (line : List Char) : List Char :=
  if ['-', ' '].isPrefixOf line then
    "<li>".data ++ line.drop 2 ++ "</li>".data
  else line

/-- Numbered list rule: a line starting with digits, a dot and a space becomes
a list item (the number is dropped by the replacement). -/
def numberLine (line : List Char) : List Char :=
  let ds := line.takeWhile Char.isDigit
  match ds, line.dropWhile Char.isDigit with
  | _ :: _, '.' :: ' ' :: content => "<li>".data ++ content ++ "</li>".data
  | _, _ => line

/-- Blockquote rule: a line starting with a closing angle and a space. -/
def quoteLine (line : List Char) : List Char :=
  if ['>', ' '].isPrefixOf line then
    "<blockquote>".data ++ line.drop 2 ++ "</blockquote>".data
  else line

/-- Horizontal rule: a line that is exactly three dashes. -/
def hrLine (line : List Char) : List Char :=
  if line = ['-', '-', '-'] then "<hr>".data else line

/-- Scan for the earliest double asterisk, failing at a newline (the lazy dot
of the bold rule cannot cross lines); returns the content before it and the
rest after it. -/
def findStarStar : List Char → Option (List Char × List Char)
  | '*' :: '*' :: rest => some ([], rest)
  | '\n' :: _ => none
  | c :: rest => (findStarStar rest).map (fun p => (c :: p.1, p.2))
  | [] => none

/-- Scan for the earliest single asterisk, failing at a newline. -/
def findStar : List Char → Option (List Char × List Char)
  | '*' :: rest => some ([], rest)
  | '\n' :: _ => none
  | c :: rest => (findStar rest).map (fun p => (c :: p.1, p.2))
  | [] => none

/-- Scan for the earliest backtick (newlines allowed: the negated class of the
inline-code rule matches them). -/
def findTick : List Char → Option (List Char × List Char)
  | '\x60' :: rest => some ([], rest)
  | c :: rest => (findTick rest).map (fun p => (c :: p.1, p.2))
  | [] => none

/-- Scan for the earliest occurrence of `stop`; returns the content before it
and the rest after it. -/
def findUpTo (stop : Char) : List Char → Option (List Char × List Char)
  | [] => none
  | c :: rest =>
    if c = stop then some ([], rest)
    else (findUpTo stop rest).map (fun p => (c :: p.1, p.2))

/-- Scan for the earliest newline followed by a closing code fence. -/
def findFenceClose : List Char → Option (List Char × List Char)
  | '\n' :: '\x60' :: '\x60' :: '\x60' :: rest => some ([], rest)
  | c :: rest => (findFenceClose rest).map (fun p => (c :: p.1, p.2))
  | [] => none

/-- Bold rule: a double asterisk, the shortest newline-free content, and a
closing double asterisk become a strong element; on failure the scan advances
one character. -/
def boldPass : Nat → List Char → List Char
  | 0, s => s
  | _ + 1, [] => []
  | fuel + 1, '*' :: '*' :: rest =>
    match findStarStar rest with
    | some (content, rest') =>
      "<strong>".data ++ content ++ "</strong>".data ++ boldPass fuel rest'
    | none => '*' :: boldPass fuel ('*' :: rest)
  | fuel + 1, c :: rest => c :: boldPass fuel rest

/-- Italic rule: a single asterisk, the shortest newline-free content, and a
closing asterisk become an emphasis element. -/
def italicPass : Nat → List Char → List Char
  | 0, s => s
  | _ + 1, [] => []
  | fuel + 1, '*' :: rest =>
    match findStar rest with
    | some (content, rest') =>
      "<em>".data ++ content ++ "</em>".data ++ italicPass fuel rest'
    | none => '*' :: italicPass fuel rest
  | fuel + 1, c :: rest => c :: italicPass fuel rest

/-- Inline code rule: a backtick, one or more non-backtick characters, and a
closing backtick become a code element; an immediately following backtick
(empty content) is no match and the scan advances one character. -/
def codePass : Nat → List Char → List Char
  | 0, s => s
  | _ + 1, [] => []
  | fuel + 1, '\x60' :: rest =>
    match findTick rest with
    | some ([], _) => '\x60' :: codePass fuel rest
    | some (content, rest') =>
      "<code>".data ++ content ++ "</code>".data ++ codePass fuel rest'
    | none => '\x60' :: codePass fuel rest
  | fuel + 1, c :: rest => c :: codePass fuel rest

/-- Word characters of the regex `\w` class. -/
def isWordChar (c : Char) : Bool :=
  c.isAlphanum || c = '_'

/-- Fenced code block rule: three backticks, an optional language word, a
newline, the shortest content up to a newline followed by three backticks. -/
def fencePass : Nat → List Char → List Char
  | 0, s => s
  | _ + 1, [] => []
  | fuel + 1, '\x60' :: '\x60' :: '\x60' :: rest =>
    match rest.dropWhile isWordChar with
    | '\n' :: afterNl =>
      (match findFenceClose afterNl with
       | some (content, rest') =>
         "<pre><code class=\"language-".data ++ rest.takeWhile isWordChar ++
           "\">".data ++ content ++ "</code></pre>".data ++ fencePass fuel rest'
       | none => '\x60' :: fencePass fuel ('\x60' :: '\x60' :: rest))
    | _ => '\x60' :: fencePass fuel ('\x60' :: '\x60' :: rest)
  | fuel + 1, c :: rest => c :: fencePass fuel rest

/-- Link rule: bracketed non-empty text immediately followed by parenthesised
non-empty target becomes an anchor opening in a new tab. -/
def linkPass : Nat → List Char → List Char
  | 0, s => s
  | _ + 1, [] => []
  | fuel + 1, '[' :: rest =>
    (match findUpTo ']' rest with
     | some (text, afterText) =>
       if text = [] then '[' :: linkPass fuel rest
       else
         match afterText with
         | '(' :: afterParen =>
           (match findUpTo ')' afterParen with
            | some (url, rest') =>
              if url = [] then '[' :: linkPass fuel rest
              else
                "<a href=\"".data ++ url ++ "\" target=\"_blank\" rel=\"noopener\">".data ++
                  text ++ "</a>".data ++ linkPass fuel rest'
            | none => '[' :: linkPass fuel rest)
         | _ => '[' :: linkPass fuel rest
     | none => '[' :: linkPass fuel rest)
  | fuel + 1, c :: rest => c :: linkPass fuel rest

/-- Image rule: an exclamation mark, bracketed possibly-empty alt text, and a
parenthesised non-empty source become an image element. -/
def imagePass : Nat → List Char → List Char
  | 0, s => s
  | _ + 1, [] => []
  | fuel + 1, '!' :: '[' :: rest =>
    (match findUpTo ']' rest with
     | some (alt, afterAlt) =>
       (match afterAlt with
        | '(' :: afterParen =>
          (match findUpTo ')' afterParen with
           | some (url, rest') =>
             if url = [] then '!' :: imagePass fuel ('[' :: rest)
             else
               "<img src=\"".data ++ url ++ "\" alt=\"".data ++ alt ++
                 "\" style=\"max-width: 100%; border-radius: 6px; margin: 10px 0;\">".data ++
                 imagePass fuel rest'
           | none => '!' :: imagePass fuel ('[' :: rest))
        | _ => '!' :: imagePass fuel ('[' :: rest))
     | none => '!' :: imagePass fuel ('[' :: rest))
  | fuel + 1, c :: rest => c :: imagePass fuel rest

/-- Double newline to paragraph break. -/
def paraPass : List Char → List Char
  | '\n' :: '\n' :: rest => "</p><p>".data ++ paraPass rest
  | c :: rest => c :: paraPass rest
  | [] => []

/-- Remaining single newline to line break. -/
def brPass : List Char → List Char
  | '\n' :: rest => "<br>".data ++ brPass rest
  | c :: rest => c :: brPass rest
  | [] => []

/-- Index of the first occurrence of `pat` in `s`. -/
def idxOfSub (pat : List Char) : List Char → Option Nat
  | [] => none
  | c :: rest =>
    if pat.isPrefixOf (c :: rest) then some 0
    else (idxOfSub pat rest).map (· + 1)

/-- Index of the last occurrence of `pat` in `s`. -/
def lastIdxOfSub (pat : List Char) : List Char → Option Nat
  | [] => none
  | c :: rest =>
    match lastIdxOfSub pat rest with
    | some n => some (n + 1)
    | none => if pat.isPrefixOf (c :: rest) then some 0 else none

/-- List wrapping: the dotall, greedy, global rule matches once, from the
first opening list item to the end of the last closing one (if that closer
starts after the opener), and wraps that span in one unordered list. -/
def wrapListItems (s : List Char) : List Char :=
  match idxOfSub "<li>".data s, lastIdxOfSub "</li>".data s with
  | some i, some j =>
    if i + 4 ≤ j then
      s.take i ++ "<ul>".data ++ (s.drop i).take (j + 5 - i) ++ "</ul>".data ++ s.drop (j + 5)
    else s
  | _, _ => s

/-- Empty-paragraph cleanup: an opening paragraph tag, whitespace only, and a
closing one are removed; the scan advances one character on failure. -/
def cleanupPass : Nat → List Char → List Char
  | 0, s => s
  | _ + 1, [] => []
  | fuel + 1, '<' :: 'p' :: '>' :: rest =>
    let rest₁ := rest.dropWhile isJsSpace
    if "</p>".data.isPrefixOf rest₁ then cleanupPass fuel (rest₁.drop 4)
    else '<' :: cleanupPass fuel ('p' :: '>' :: rest)
  | fuel + 1, c :: rest => c :: cleanupPass fuel rest

/-- The whole rewrite chain of updatePreview, in source order. -/
def renderMarkdown (md : String) : String :=
  let s := md.data
  let s := mapLines (headerLine 1) s
  let s := mapLines (headerLine 2) s
  let s := mapLines (headerLine 3) s
  let s := mapLines (headerLine 4) s
  let s := mapLines (headerLine 5) s
  let s := mapLines (headerLine 6) s
  let s := boldPass s.length s
  let s := italicPass s.length s
  let s := codePass s.length s
  let s := fencePass s.length s
  let s := linkPass s.length s
  let s := imagePass s.length s
  let s := mapLines bulletLine s
  let s := mapLines numberLine s
  let s := mapLines quoteLine s
  let s := mapLines hrLine s
  let s := paraPass s
  let s := brPass s
  let s := wrapListItems s
  let s := "<p>".data ++ s ++ "</p>".data
  let s := cleanupPass s.length s
  ⟨s⟩

/-- The preview update as a function of the textarea content and the form
fields: blank input short-circuits to the placeholder message, otherwise the
placeholders are substituted and the result rendered (script.js lines
719-789). -/
def updatePreview (markdown : String) (fields : List FormField) : Except SubstError String :=
  if jsTrim markdown = "" then
    .ok "<p style=\"color: #8b949e; text-align: center; padding: 40px;\">Preview will appear here</p>"
  else
    match previewSubstitute markdown fields with
    | .ok processed => .ok (renderMarkdown processed)
    | .error e => .error e

/-! ### createIssue orchestration (script.js lines 494-554)

The function first checks the connection state, then the trimmed title, then
the trimmed body, then every required field's trimmed value, returning with an
error message at the first failure; only after all checks pass does it build
the field-value map, substitute placeholders and issue the creation request.
The draft in local storage is only touched in the success branch of the
response handling. -/

/-- A form control matching the required-field query, with the string exposed
by its `value` property, in DOM order. -/
structure RequiredField where
  name : String
  value : String
deriving DecidableEq, Repr

/-- The state createIssue reads: the connection globals, the raw title and
body, the required-field controls, all field controls, and the current
template's labels. -/
structure CreateIssueForm where
  currentUser : Option String
  currentRepository : Option String
  currentToken : Option String
  titleRaw : String
  bodyRaw : String
  requiredFields : List RequiredField
  fields : List FormField
  labels : List String
deriving DecidableEq, Repr

/-- JavaScript truthiness of the nullable string globals: null and the empty
string are falsy. -/
def jsTruthyStr : Option String → Bool
  | none => false
  | some s => s != ""

/-- What createIssue does, up to the point where an HTTP request would leave
the browser: either it returns early with a validation message (before any
substitution, before showing the loading state, leaving the form and the
stored draft untouched), or the substitution step raises (caught by the
surrounding try, reported, no request sent), or it reaches the fetch with the
final body. -/
inductive CreateIssueOutcome where
  | validationError (message : String)
  | substitutionError (e : SubstError)
  | request (title body : String) (labels : List String)
deriving DecidableEq, Repr

/-- The for-of loop over the required fields: the first one whose trimmed
value is empty, if any. -/
def firstBlankRequired : List RequiredField → Option RequiredField
  | [] => none
  | f :: rest => if jsTrim f.value = "" then some f else firstBlankRequired rest

/-- The control flow of createIssue from entry to the issue-creation request. -/
def createIssue (form : CreateIssueForm) : CreateIssueOutcome :=
  if !(jsTruthyStr form.currentUser && jsTruthyStr form.currentRepository &&
        jsTruthyStr form.currentToken) then
    .validationError "Please connect to a repository first"
  else if jsTrim form.titleRaw = "" then .validationError "Please enter issue title"
  else if jsTrim form.bodyRaw = "" then .validationError "Please enter issue body"
  else
    match firstBlankRequired form.requiredFields with
    | some f => .validationError ("Please fill required field: " ++ f.name)
    | none =>
      match createIssueFinalBody (jsTrim form.bodyRaw) form.fields with
      | .ok finalBody => .request (jsTrim form.titleRaw) finalBody form.labels
      | .error e => .substitutionError e

/-! ### Supporting lemmas -/

/-- A key made of ordinary characters yields a well-formed pattern: the scan
skips the escaped opening brace, walks the ordinary key characters without
changing state, skips the escaped closing brace and accepts. -/
theorem regexScan_cons_ordinary (c : Char) (hc : regexSyntaxChar c = false)
    (l : List Char) (d : Nat) :
    regexScan (c :: l) d false = regexScan l d false := by
  have h2 : ¬ c = '\\' := fun h => absurd (h ▸ hc) (by decide)
  have h7 : ¬ c = '[' := fun h => absurd (h ▸ hc) (by decide)
  have h8 : ¬ c = '(' := fun h => absurd (h ▸ hc) (by decide)
  have h9 : ¬ c = ')' := fun h => absurd (h ▸ hc) (by decide)
  rw [regexScan.eq_def]
  simp [h2, h7, h8, h9]

theorem regexScan_append_ordinary (cs : List Char)
    (h : ∀ c ∈ cs, regexSyntaxChar c = false) (rest : List Char) (d : Nat) :
    regexScan (cs ++ rest) d false = regexScan rest d false := by
  induction cs with
  | nil => rfl
  | cons c cs ih =>
    rw [List.cons_append, regexScan_cons_ordinary c (h c (by simp)) _ d]
    exact ih (fun c' hc' => h c' (by simp [hc']))

theorem literal_key_wellFormed (key : String) (h : isRegexLiteralKey key = true) :
    regexWellFormed (mkPlaceholderPattern key) = true := by
  have hall : ∀ c ∈ key.data, regexSyntaxChar c = false := by
    intro c hc
    have := (List.all_eq_true.mp h) c hc
    simpa using this
  have hdata : (mkPlaceholderPattern key).data =
      '\\' :: '\x7b' :: (key.data ++ ['\\', '\x7d']) := by
    simp [mkPlaceholderPattern, String.data_append]
  rw [regexWellFormed, hdata]
  show regexScan ('\\' :: '\x7b' :: (key.data ++ ['\\', '\x7d'])) 0 false = true
  rw [show regexScan ('\\' :: '\x7b' :: (key.data ++ ['\\', '\x7d'])) 0 false
        = regexScan (key.data ++ ['\\', '\x7d']) 0 false from by simp [regexScan]]
  rw [regexScan_append_ordinary key.data hall ['\\', '\x7d'] 0]
  rfl

/-- With a well-formed pattern the substitution step succeeds. -/
theorem substituteKey_ok (body key value : String) (h : isRegexLiteralKey key = true) :
    substituteKey body key value =
      .ok ⟨listReplaceAll (placeholderText key).data value.data body.data⟩ := by
  rw [substituteKey, if_pos (literal_key_wellFormed key h)]

/-- The whole loop succeeds whenever every key is made of ordinary pattern
characters. -/
theorem replacePlaceholders_ok (entries : List (String × String)) :
    ∀ body : String, (∀ p ∈ entries, isRegexLiteralKey p.1 = true) →
      ∃ out, replacePlaceholders body entries = .ok out := by
  induction entries with
  | nil => exact fun body _ => ⟨body, rfl⟩
  | cons p rest ih =>
    intro body h
    obtain ⟨key, value⟩ := p
    rw [replacePlaceholders, substituteKey_ok body key value (h (key, value) (List.mem_cons_self _ _))]
    exact ih _ (fun q hq => h q (by simp [hq]))

/-- When no field is a checkbox the two stringifications agree, hence the two
field-value maps agree. -/
theorem fieldValues_agree (fields : List FormField)
    (h : ∀ f ∈ fields, ∀ b, f.value ≠ .checkbox b) :
    previewFieldValues fields = submitFieldValues fields := by
  induction fields with
  | nil => rfl
  | cons f rest ih =>
    have hf : ∀ b, f.value ≠ .checkbox b := h f (by simp)
    have hv : previewValueString f.value = submitValueString f.value := by
      cases hval : f.value with
      | str s => rfl
      | checkbox b => exact absurd hval (hf b)
    simp only [previewFieldValues, submitFieldValues, List.map_cons, hv]
    have := ih (fun g hg b => h g (by simp [hg]) b)
    simp only [previewFieldValues, submitFieldValues] at this
    rw [this]

/-- A blank required field is found by the for-of loop. -/
theorem firstBlankRequired_some (l : List RequiredField)
    (h : ∃ f ∈ l, jsTrim f.value = "") : ∃ g, firstBlankRequired l = some g := by
  induction l with
  | nil => simp at h
  | cons f rest ih =>
    rw [firstBlankRequired]
    by_cases hf : jsTrim f.value = ""
    · exact ⟨f, if_pos hf⟩
    · rw [if_neg hf]
      obtain ⟨g, hg, hblank⟩ := h
      rcases List.mem_cons.mp hg with rfl | hmem
      · exact absurd hblank hf
      · exact ih ⟨g, hmem, hblank⟩

/-! ### Non-interference of distinct placeholders

A placeholder pattern and a placeholder token with different brace-free names
can never overlap in any string, so replacing one leaves every occurrence of
the other intact. -/

/-- Occurrences of `pat` and occurrences of `tok` are disjoint in every
string. -/
def PatNoOverlap (pat tok : List Char) : Prop :=
  ∀ (s : List Char) (p q : Nat), pat <+: s.drop p → tok <+: s.drop q →
    p + pat.length ≤ q ∨ q + tok.length ≤ p

theorem IsPrefix_getElem? {l s : List Char} (h : l <+: s) {i : Nat}
    (hi : i < l.length) : s[i]? = l[i]? := by
  obtain ⟨t, rfl⟩ := h
  exact List.getElem?_append_left hi

theorem concat_prefix_concat_eq {a b : List Char} {x : Char}
    (h : a ++ [x] <+: b ++ [x]) (hxb : x ∉ b) : a = b := by
  rcases Nat.lt_trichotomy a.length b.length with hl | hl | hl
  · exfalso
    have h1 : (b ++ [x])[a.length]? = (a ++ [x])[a.length]? :=
      IsPrefix_getElem? h (by simp)
    rw [List.getElem?_concat_length] at h1
    rw [List.getElem?_append_left hl] at h1
    exact hxb (List.getElem?_mem h1)
  · have heq := List.IsPrefix.eq_of_length h (by simp [hl])
    have := congrArg List.dropLast heq
    simpa [List.dropLast_concat] using this
  · exfalso
    have := h.length_le
    simp only [List.length_append, List.length_singleton, List.length_nil] at this
    omega

/-- Core case analysis: a placeholder for name `u` cannot begin strictly
inside, nor at the start of, a placeholder for a different brace-free name
`k`. -/
theorem placeholder_apart {k u : List Char}
    (hk : ∀ c ∈ k, ¬ c = '\x7b' ∧ ¬ c = '\x7d')
    (hu : ∀ c ∈ u, ¬ c = '\x7b' ∧ ¬ c = '\x7d')
    (hne : k ≠ u) {s : List Char} {p q : Nat}
    (hp : ('\x7b' :: (k ++ ['\x7d'])) <+: s.drop p)
    (hq : ('\x7b' :: (u ++ ['\x7d'])) <+: s.drop q)
    (hpq : p ≤ q) (hlt : q < p + (k.length + 2)) : False := by
  have hq0 : s[q]? = some '\x7b' := by
    have h0 := IsPrefix_getElem? hq (i := 0) (by simp)
    rw [List.getElem?_drop] at h0
    simpa using h0
  have hpj : s[q]? = ('\x7b' :: (k ++ ['\x7d']))[q - p]? := by
    have hj := IsPrefix_getElem? hp (i := q - p)
      (by simp only [List.length_cons, List.length_append, List.length_singleton, List.length_nil]; omega)
    rw [List.getElem?_drop] at hj
    rw [show p + (q - p) = q from by omega] at hj
    exact hj
  rw [hq0] at hpj
  rcases Nat.eq_zero_or_pos (q - p) with h0 | hpos
  · have hpq' : p = q := by omega
    subst hpq'
    rcases List.prefix_or_prefix_of_prefix hp hq with hpre | hpre
    · rw [List.cons_prefix_cons] at hpre
      exact hne (concat_prefix_concat_eq hpre.2 (fun hmem => (hu _ hmem).2 rfl))
    · rw [List.cons_prefix_cons] at hpre
      exact hne (concat_prefix_concat_eq hpre.2 (fun hmem => (hk _ hmem).2 rfl)).symm
  · obtain ⟨i, hi⟩ : ∃ i, q - p = i + 1 := ⟨q - p - 1, by omega⟩
    rw [hi, List.getElem?_cons_succ] at hpj
    by_cases hik : i < k.length
    · rw [List.getElem?_append_left hik] at hpj
      exact (hk _ (List.getElem?_mem hpj.symm)).1 rfl
    · have hik' : i = k.length := by
        have : i + 1 < k.length + 2 := by omega
        omega
      subst hik'
      rw [List.getElem?_concat_length] at hpj
      exact absurd hpj (by decide)

/-- Placeholders of distinct brace-free names never overlap. -/
theorem placeholder_noOverlap {k u : List Char}
    (hk : ∀ c ∈ k, ¬ c = '\x7b' ∧ ¬ c = '\x7d')
    (hu : ∀ c ∈ u, ¬ c = '\x7b' ∧ ¬ c = '\x7d')
    (hne : k ≠ u) :
    PatNoOverlap ('\x7b' :: (k ++ ['\x7d'])) ('\x7b' :: (u ++ ['\x7d'])) := by
  intro s p q hp hq
  by_contra hcon
  push_neg at hcon
  obtain ⟨h1, h2⟩ := hcon
  simp only [List.length_cons, List.length_append, List.length_singleton, List.length_nil] at h1 h2
  rcases le_or_lt p q with hle | hlt
  · exact placeholder_apart hk hu hne hp hq hle (by omega)
  · exact placeholder_apart hu hk (fun h => hne h.symm) hq hp (by omega) (by omega)

/-- A prefix of a dropped suffix is an infix. -/
theorem occurrence_of_drop {tok s : List Char} {q : Nat}
    (h : tok <+: List.drop q s) : tok <:+: s := by
  obtain ⟨r, hr⟩ := h
  refine ⟨s.take q, r, ?_⟩
  rw [List.append_assoc, hr, List.take_append_drop]

/-- An infix is a prefix of some dropped suffix. -/
theorem drop_of_occurrence {tok s : List Char} (h : tok <:+: s) :
    ∃ q, tok <+: List.drop q s := by
  obtain ⟨a, b, rfl⟩ := h
  refine ⟨a.length, ?_⟩
  rw [List.append_assoc, List.drop_left]
  exact ⟨b, rfl⟩

/-- If no occurrence of the pattern begins inside the first `tok.length`
characters, the replacement scan copies them unchanged. -/
theorem replaceAllFuel_copies_head (pat repl : List Char) :
    ∀ (fuel : Nat) (tok s : List Char),
      (∀ p, p < tok.length → ¬ pat <+: s.drop p) → tok <+: s →
      tok <+: replaceAllFuel pat repl fuel s := by
  intro fuel
  induction fuel with
  | zero => exact fun tok s _ hts => hts
  | succ n ih =>
    intro tok s hno hts
    match s with
    | [] =>
      have : tok = [] := List.prefix_nil.mp hts
      subst this
      exact List.nil_prefix
    | c :: rest =>
      by_cases hmatch : (pat.isPrefixOf (c :: rest) && !pat.isEmpty) = true
      · match tok, hts with
        | [], _ => exact List.nil_prefix
        | t :: tok', hts =>
          exact absurd (by simpa using
              List.isPrefixOf_iff_prefix.mp (Bool.and_eq_true_iff.mp hmatch).1)
            (hno 0 (by simp))
      · simp only [replaceAllFuel, if_neg hmatch]
        match tok, hts with
        | [], _ => exact List.nil_prefix
        | t :: tok', hts =>
          rw [List.cons_prefix_cons] at hts
          refine List.cons_prefix_cons.mpr ⟨hts.1, ih tok' rest ?_ hts.2⟩
          intro p hp hpre
          exact hno (p + 1) (by simp only [List.length_cons]; omega)
            (by simpa [List.drop_succ_cons] using hpre)

/-- A token that never overlaps the pattern survives global replacement, from
any position. -/
theorem replaceAllFuel_token_survives (pat repl tok : List Char)
    (hno : PatNoOverlap pat tok) (hpat : 0 < pat.length) :
    ∀ (fuel : Nat) (s : List Char) (q : Nat),
      tok <+: s.drop q → tok <:+: replaceAllFuel pat repl fuel s := by
  intro fuel
  induction fuel with
  | zero => exact fun s q htok => occurrence_of_drop htok
  | succ n ih =>
    intro s q htok
    match s with
    | [] =>
      have : tok = [] := List.prefix_nil.mp (by simpa using htok)
      subst this
      exact List.nil_infix
    | c :: rest =>
      by_cases hmatch : (pat.isPrefixOf (c :: rest) && !pat.isEmpty) = true
      · simp only [replaceAllFuel, if_pos hmatch]
        have hpp : pat <+: (c :: rest) :=
          List.isPrefixOf_iff_prefix.mp (Bool.and_eq_true_iff.mp hmatch).1
        rcases hno (c :: rest) 0 q (by simpa using hpp) htok with hd | hd
        · have hqge : pat.length ≤ q := by omega
          have hdrop : (c :: rest).drop q =
              (List.drop (pat.length - 1) rest).drop (q - pat.length) := by
            obtain ⟨m, hm⟩ : ∃ m, pat.length = m + 1 := ⟨pat.length - 1, by omega⟩
            obtain ⟨q', rfl⟩ : ∃ q', q = q' + 1 := ⟨q - 1, by omega⟩
            rw [hm, List.drop_succ_cons, List.drop_drop]
            congr 1
            omega
          rw [hdrop] at htok
          obtain ⟨x, y, hxy⟩ := ih (List.drop (pat.length - 1) rest) (q - pat.length) htok
          exact ⟨repl ++ x, y, by
            simp only [List.append_assoc] at hxy ⊢
            rw [hxy]⟩
        · have : tok = [] := by
            match tok with
            | [] => rfl
            | t :: tok' => simp only [List.length_cons] at hd; omega
          subst this
          exact List.nil_infix
      · rcases Nat.eq_zero_or_pos q with rfl | hqpos
        · have hcond : ∀ p, p < tok.length → ¬ pat <+: (c :: rest).drop p := by
            intro p hp hpre
            rcases hno (c :: rest) p 0 hpre (by simpa using htok) with hd | hd
            · omega
            · omega
          exact List.IsPrefix.isInfix (replaceAllFuel_copies_head pat repl (n + 1) tok
            (c :: rest) hcond (by simpa using htok))
        · obtain ⟨q', rfl⟩ : ∃ q'', q = q'' + 1 := ⟨q - 1, by omega⟩
          have htok' : tok <+: rest.drop q' := by
            simpa [List.drop_succ_cons] using htok
          simp only [replaceAllFuel, if_neg hmatch]
          exact List.infix_cons (ih rest q' htok')

/-! ### Token preservation through the substitution loop -/

theorem placeholderText_data (name : String) :
    (placeholderText name).data = '\x7b' :: (name.data ++ ['\x7d']) := by
  simp [placeholderText, String.data_append]

theorem braceFree_chars {s : String} (h : braceFree s = true) :
    ∀ c ∈ s.data, ¬ c = '\x7b' ∧ ¬ c = '\x7d' := by
  intro c hc
  have := (List.all_eq_true.mp h) c hc
  simp only [Bool.not_eq_eq_eq_not, Bool.not_true, Bool.or_eq_false_iff,
    decide_eq_false_iff_not] at this
  exact this

theorem literal_key_braceFree {key : String} (h : isRegexLiteralKey key = true) :
    braceFree key = true := by
  rw [braceFree, List.all_eq_true]
  intro c hc
  have := (List.all_eq_true.mp h) c hc
  simp only [Bool.not_eq_eq_eq_not, Bool.not_true] at this
  simp only [regexSyntaxChar, Bool.or_eq_false_iff, decide_eq_false_iff_not] at this
  simp only [Bool.not_eq_eq_eq_not, Bool.not_true, Bool.or_eq_false_iff,
    decide_eq_false_iff_not]
  exact ⟨this.1.1.2, this.1.2⟩

theorem strContains_iff {s sub : String} :
    strContains s sub = true ↔ sub.data <:+: s.data := by
  rw [strContains, decide_eq_true_iff]

/-- One substitution step for a brace-free key neither fails nor disturbs any
occurrence of a placeholder with a different brace-free name. -/
theorem substituteKey_keeps_token (body key value name : String)
    (hkey : isRegexLiteralKey key = true) (hname : braceFree name = true)
    (hne : key ≠ name) (hocc : strContains body (placeholderText name) = true) :
    ∃ out, substituteKey body key value = .ok out ∧
      strContains out (placeholderText name) = true := by
  refine ⟨_, substituteKey_ok body key value hkey, ?_⟩
  rw [strContains_iff]
  show (placeholderText name).data <:+:
    listReplaceAll (placeholderText key).data value.data body.data
  rw [strContains_iff] at hocc
  obtain ⟨q, hq⟩ := drop_of_occurrence hocc
  have hno : PatNoOverlap (placeholderText key).data (placeholderText name).data := by
    rw [placeholderText_data, placeholderText_data]
    exact placeholder_noOverlap (braceFree_chars (literal_key_braceFree hkey))
      (braceFree_chars hname) (fun hdata => hne (String.ext hdata))
  have hpat : 0 < (placeholderText key).data.length := by
    rw [placeholderText_data]; simp
  exact replaceAllFuel_token_survives _ _ _ hno hpat body.data.length body.data q hq

/-- The whole loop keeps every placeholder whose name matches no key. -/
theorem replacePlaceholders_keeps_token (entries : List (String × String)) :
    ∀ body name : String, (∀ p ∈ entries, isRegexLiteralKey p.1 = true) →
      braceFree name = true → (∀ p ∈ entries, p.1 ≠ name) →
      strContains body (placeholderText name) = true →
      ∃ out, replacePlaceholders body entries = .ok out ∧
        strContains out (placeholderText name) = true := by
  induction entries with
  | nil => exact fun body name _ _ _ hocc => ⟨body, rfl, hocc⟩
  | cons p rest ih =>
    intro body name hkeys hname hne hocc
    obtain ⟨key, value⟩ := p
    obtain ⟨mid, hmid, hmidocc⟩ := substituteKey_keeps_token body key value name
      (hkeys (key, value) (List.mem_cons_self _ _)) hname
      (hne (key, value) (List.mem_cons_self _ _)) hocc
    rw [replacePlaceholders, hmid]
    exact ih mid name (fun q hq => hkeys q (List.mem_cons_of_mem _ hq)) hname
      (fun q hq => hne q (List.mem_cons_of_mem _ hq)) hmidocc

/-! ### Claims -/

/-- Claim C1, counterexample: substitution is not single-pass.  With the map
entries in the order a, b (values of key a, then key b), substituting the body
containing only the token of a yields "X": the value substituted for a is
itself reinterpreted as a template when b is processed, so the literal token
of b does not survive in the output. -/
theorem C1_counterexample :
    replacePlaceholders "{a}" [("a", "{b}"), ("b", "X")] = .ok "X" ∧
    strContains "X" "{b}" = false := ⟨rfl, by decide⟩

/-- Claim C1, amended: substitution is a sequential fold over the map entries
in iteration order, one global replacement per key, each running on the output
of the previous one; a value placed by an earlier entry is reinterpreted by a
later entry whose key it mentions, so the example's output depends on the
order of the entries. -/
theorem C1_sequential_order_dependent :
    replacePlaceholders "{a}" [("a", "{b}"), ("b", "X")] = .ok "X" ∧
    replacePlaceholders "{a}" [("b", "X"), ("a", "{b}")] = .ok "{b}" := ⟨rfl, rfl⟩

/-- Claim C2, counterexample: substitution can raise.  A key containing an
unbalanced group parenthesis makes the constructed pattern ill-formed, the
RegExp constructor throws, and both the preview path and the submit path fail
instead of producing a string. -/
theorem C2_counterexample :
    previewSubstitute "{x}" [⟨"(", FieldVal.str "v"⟩] =
      .error (.invalidRegex "\\\x7b(\\\x7d") ∧
    createIssueFinalBody "{x}" [⟨"(", FieldVal.str "v"⟩] =
      .error (.invalidRegex "\\\x7b(\\\x7d") := ⟨rfl, rfl⟩

/-- Claim C2, amended: for every body and all values, the substitution step of
both paths terminates normally with a string provided every field name is free
of regex syntax characters (so that the constructed pattern is well-formed). -/
theorem C2_substitution_total (body : String) (fields : List FormField)
    (h : ∀ f ∈ fields, isRegexLiteralKey f.name = true) :
    (∃ s, previewSubstitute body fields = .ok s) ∧
    (∃ s, createIssueFinalBody body fields = .ok s) := by
  constructor
  · refine replacePlaceholders_ok _ body ?_
    intro p hp
    obtain ⟨f, hf, rfl⟩ := List.mem_map.mp hp
    exact h f hf
  · refine replacePlaceholders_ok _ body ?_
    intro p hp
    obtain ⟨f, hf, rfl⟩ := List.mem_map.mp hp
    exact h f hf

/-- Witness for C2 at a concrete field list. -/
theorem C2_witness :
    (∃ s, previewSubstitute "{x}" [⟨"name", FieldVal.str "Alice"⟩] = .ok s) ∧
    (∃ s, createIssueFinalBody "{x}" [⟨"name", FieldVal.str "Alice"⟩] = .ok s) :=
  C2_substitution_total "{x}" [⟨"name", FieldVal.str "Alice"⟩] (by decide)

/-- Claim C3: the spec requires checkbox values to render as a human-readable
yes/no token in the submitted body, and the preview path indeed shows one, but
the final body createIssue submits contains the raw boolean text instead: the
code stores the checked state unconverted and the replacement coerces it. -/
theorem C3_checkbox_raw_bool_text :
    createIssueFinalBody "{done}" [⟨"done", FieldVal.checkbox true⟩] = .ok "true" ∧
    createIssueFinalBody "{done}" [⟨"done", FieldVal.checkbox false⟩] = .ok "false" ∧
    previewSubstitute "{done}" [⟨"done", FieldVal.checkbox true⟩] = .ok "✓ Yes" := ⟨rfl, rfl, rfl⟩

/-- Claim C4: a placeholder token whose brace-free name is not among the keys
is left in the output, with no error, for any values, whenever the keys are
ordinary (syntax-character-free, the shapes a field name takes and the scope
in which the interpolated pattern matches literally). -/
theorem C4_unmatched_tokens_verbatim (body name : String)
    (entries : List (String × String))
    (hkeys : ∀ p ∈ entries, isRegexLiteralKey p.1 = true)
    (hname : braceFree name = true)
    (hne : ∀ p ∈ entries, p.1 ≠ name)
    (hocc : strContains body (placeholderText name) = true) :
    ∃ out, replacePlaceholders body entries = .ok out ∧
      strContains out (placeholderText name) = true :=
  replacePlaceholders_keeps_token entries body name hkeys hname hne hocc

/-- Witness for C4 at the example of the claim. -/
theorem C4_witness :
    ∃ out, replacePlaceholders "{unknown}" [("a", "1")] = .ok out ∧
      strContains out (placeholderText "unknown") = true :=
  C4_unmatched_tokens_verbatim "{unknown}" "unknown" [("a", "1")]
    (by decide) (by decide) (by decide) (by decide)

/-- Claim C5, counterexample: the two list items are not contiguous in the
rendered output, because the newline between the bullet lines has already
been rewritten to a line-break element before the list is wrapped. -/
theorem C5_counterexample :
    strContains (renderMarkdown "- one\n- two") "<li>one</li><li>two</li>" = false := by
  decide

/-- Claim C5, amended: the bullet input renders to the two list items
separated by a line-break element, wrapped by exactly one unordered-list
pair. -/
theorem C5_single_ul_wrap :
    renderMarkdown "- one\n- two" = "<p><ul><li>one</li><br><li>two</li></ul></p>" ∧
    strContains (renderMarkdown "- one\n- two") "<li>one</li><br><li>two</li>" = true ∧
    strCount (renderMarkdown "- one\n- two") "<ul>" = 1 ∧
    strCount (renderMarkdown "- one\n- two") "</ul>" = 1 := by decide

/-- Claim C6: bold is matched before italic, so adjacent emphasis renders with
exactly one strong element and one emphasis element and no stray tags. -/
theorem C6_bold_before_italic :
    renderMarkdown "**a** *b*" = "<p><strong>a</strong> <em>b</em></p>" ∧
    strCount (renderMarkdown "**a** *b*") "<strong>a</strong>" = 1 ∧
    strCount (renderMarkdown "**a** *b*") "<em>b</em>" = 1 ∧
    strCount (renderMarkdown "**a** *b*") "<strong>" = 1 ∧
    strCount (renderMarkdown "**a** *b*") "<em>" = 1 := by decide

/-- Claim C7: the renderer (a total function in this embedding, as the source
chain of replacements cannot throw) leaves an unterminated emphasis marker as
literal text: the input with a lone asterisk renders to a paragraph containing
it verbatim. -/
theorem C7_renderer_total_on_malformed :
    renderMarkdown "*a" = "<p>*a</p>" ∧
    strContains (renderMarkdown "*a") "*a" = true := by decide

/-- Claim C8: the end-to-end scenario: substituting the greeting template with
the two string fields yields the expected plain body, and rendering it wraps
it in exactly one outer paragraph. -/
theorem C8_end_to_end :
    previewSubstitute "Hello {name}, priority {priority}"
        [⟨"name", FieldVal.str "Alice"⟩, ⟨"priority", FieldVal.str "High"⟩] =
      .ok "Hello Alice, priority High" ∧
    updatePreview "Hello {name}, priority {priority}"
        [⟨"name", FieldVal.str "Alice"⟩, ⟨"priority", FieldVal.str "High"⟩] =
      .ok "<p>Hello Alice, priority High</p>" := ⟨rfl, rfl⟩

/-- Claim C9: on any body, when no field is a checkbox, the preview path's
substituted string is the submit path's final body: the two loops differ only
in how they stringify checkbox values. -/
theorem C9_preview_submit_agree (body : String) (fields : List FormField)
    (h : ∀ f ∈ fields, ∀ b, f.value ≠ FieldVal.checkbox b) :
    previewSubstitute body fields = createIssueFinalBody body fields := by
  rw [previewSubstitute, createIssueFinalBody, fieldValues_agree fields h]

/-- Witness for C9 at a concrete body and field list. -/
theorem C9_witness :
    previewSubstitute "{a} and {b}" [⟨"a", FieldVal.str "1"⟩, ⟨"b", FieldVal.str "2"⟩] =
      createIssueFinalBody "{a} and {b}" [⟨"a", FieldVal.str "1"⟩, ⟨"b", FieldVal.str "2"⟩] :=
  C9_preview_submit_agree _ _ (by decide)

/-- Claim C10: whenever the trimmed title or trimmed body is empty or some
required field is blank, createIssue stops with a validation message: the
outcome carries no substitution and no request, so neither runs and the form
state and stored draft are untouched. -/
theorem C10_validation_atomic (form : CreateIssueForm)
    (h : jsTrim form.titleRaw = "" ∨ jsTrim form.bodyRaw = "" ∨
         ∃ f ∈ form.requiredFields, jsTrim f.value = "") :
    ∃ msg, createIssue form = .validationError msg := by
  rw [createIssue]
  by_cases hconn : (!(jsTruthyStr form.currentUser && jsTruthyStr form.currentRepository &&
      jsTruthyStr form.currentToken)) = true
  · rw [if_pos hconn]; exact ⟨_, rfl⟩
  · rw [if_neg hconn]
    by_cases ht : jsTrim form.titleRaw = ""
    · rw [if_pos ht]; exact ⟨_, rfl⟩
    · rw [if_neg ht]
      by_cases hb : jsTrim form.bodyRaw = ""
      · rw [if_pos hb]; exact ⟨_, rfl⟩
      · rw [if_neg hb]
        have hreq : ∃ f ∈ form.requiredFields, jsTrim f.value = "" := by
          rcases h with h | h | h
          · exact absurd h ht
          · exact absurd h hb
          · exact h
        obtain ⟨g, hg⟩ := firstBlankRequired_some _ hreq
        rw [hg]
        exact ⟨_, rfl⟩

/-- Witness for C10 at a concrete form whose title is blank. -/
theorem C10_witness :
    ∃ msg, createIssue
        ⟨some "u", some "r", some "t", " ", "body", [⟨"f", "v"⟩], [], []⟩ =
      .validationError msg :=
  C10_validation_atomic _ (Or.inl (by decide))

end IssuesGen
